import Mathlib

/-!
# Verification of the folder-hierarchy / file-lifecycle core

A shallow embedding, in Lean 4, of the quota-accounting and folder-tree core
of the google-drive-clone backend:

* `FolderService` (`backend/src/services/folder.service.js`): name validation,
  rename/move/delete with materialized-path cascades;
* `FileService` (the full file service source file): upload intents, upload
  confirmation, single and batch deletion with guarded quota updates;
* the folder model's `getDescendants` path-prefix query.

Modelling conventions:

* The Mongo document store is a Lean structure `St` holding the single owner's
  user document and the lists of folder and file documents; a Mongo
  `find`/`findOne` becomes `List.filter`/`List.find?` with the same predicate,
  and a keyed update (`save`, `updateMany`, `bulkWrite`) becomes a `List.map`
  keyed on `_id`.
* JS numbers are `Int` where the code can drive them negative (`storageUsed`,
  `depth`, `folderCount`) and `Nat` where the schema pins them at `min: 0`
  (file sizes, ids, timestamps).
* Fallible service methods return `Except Err (α × St)`; every `throw` in the
  source happens before any store mutation of the same call (checked against
  the source), so an `error` result carries no state change.
* The blob store and per-document save failures are external: `confirmUpload`
  takes the `headObject` answer as an argument, `batchDeleteFiles` takes the
  set of file ids whose `save()` rejects.
* `FolderService.FORBIDDEN_CHARS` is a JavaScript regex with the `g` flag used
  via `.test()`; such a regex keeps its `lastIndex` between calls, so the
  validator is embedded as a state-passing function on that `lastIndex`.
* Fields of the File document that no verified property mentions (tags,
  description, preview bookkeeping) are projected away; `s3Key` and the
  preview-status initialisation are kept because `createUploadIntent` writes
  them. Mongo sort clauses on fetched document lists are dropped: every use
  in the embedded code consumes the fetched list through id-keyed updates,
  counts or sums, which are order-independent.
-/

/-- Thrown errors of the embedded services, one constructor per distinct
`throw new Error(...)` site reachable in the embedded code. -/
inductive Err where
  | missingFields
  | userNotFound
  | quotaExceeded
  | invalidFolder
  | invalidOrAlreadyConfirmed
  | notFoundInStorage
  | ownershipMismatch
  | emptyUpload
  | tooLarge
  | mimeMismatch
  | fileNotFound
  | quotaInconsistency
  | fileIdsRequired
  | noValidFiles
  | folderNotFound
  | cannotRenameRoot
  | cannotMoveRoot
  | cannotDeleteRoot
  | invalidDestination
  | depthExceeded
  | duplicateName
  | pathTooLong
  | folderNotEmpty
  | nameRequired
  | nameEmpty
  | nameTooLong
  | invalidChars
  | nameHasDotDot
  | nameReserved
  | nameDotEdge
  deriving Repr, DecidableEq

namespace JsStr

/-- JavaScript `String.prototype.startsWith`. -/
def jsStartsWith (s p : String) : Bool :=
  p.data.isPrefixOf s.data

/-- Whitespace trimmed by `String.prototype.trim` (restricted to the ASCII
whitespace that can occur in the verified inputs). -/
def jsTrim (s : String) : String :=
  ⟨((s.data.dropWhile Char.isWhitespace).reverse.dropWhile Char.isWhitespace).reverse⟩

/-- Index of the first occurrence of `pat` in `s`, if any
(JavaScript `String.prototype.indexOf` on a plain-string pattern). -/
def firstOccurAux : List Char → List Char → Option Nat
  | s, pat =>
    if pat.isPrefixOf s then some 0
    else
      match s with
      | [] => none
      | _ :: t => (firstOccurAux t pat).map (· + 1)

/-- ECMAScript `GetSubstitution` restricted to a plain-string pattern:
string patterns have no capture groups, so in the replacement only `$$`
(a literal dollar), `$&` (the matched substring), `$` before a backquote
(code point 96, the part of the subject before the match) and `$` before a
quote (code point 39, the part after the match) are special; any other `$`
is kept literally, and `$n` / `$<` forms stay literal because no (named)
captures exist. -/
def dollarSubstAux (matched before after : List Char) : List Char → List Char
  | [] => []
  | [c] => [c]
  | c :: d :: rest =>
    if c = '$' then
      if d = '$' then '$' :: dollarSubstAux matched before after rest
      else if d = '&' then matched ++ dollarSubstAux matched before after rest
      else if d = Char.ofNat 96 then before ++ dollarSubstAux matched before after rest
      else if d = Char.ofNat 39 then after ++ dollarSubstAux matched before after rest
      else c :: d :: dollarSubstAux matched before after rest
    else c :: dollarSubstAux matched before after (d :: rest)

/-- JavaScript `String.prototype.replace` with a plain-string pattern:
replaces the first occurrence only, applying dollar-substitution
(`GetSubstitution`) to the replacement string. -/
def jsReplaceFirst (s pat rep : String) : String :=
  match firstOccurAux s.data pat.data with
  | none => s
  | some i =>
    ⟨(s.data.take i) ++
       dollarSubstAux pat.data (s.data.take i)
         (s.data.drop (i + pat.data.length)) rep.data ++
       (s.data.drop (i + pat.data.length))⟩

/-- `true` iff `pat` occurs somewhere in `s`
(JavaScript `String.prototype.includes`). -/
def jsIncludes (s pat : String) : Bool :=
  (firstOccurAux s.data pat.data).isSome

/-- JavaScript `String.prototype.endsWith`. -/
def jsEndsWith (s p : String) : Bool :=
  p.data.reverse.isPrefixOf s.data.reverse

/-- JavaScript `String.prototype.toLowerCase` (ASCII range, which covers the
restricted character set of folder names). -/
def jsToLower (s : String) : String :=
  ⟨s.data.map Char.toLower⟩

/-- JavaScript `String.prototype.lastIndexOf("/")`. -/
def lastSlashIdx (s : String) : Option Nat :=
  match s.data.reverse.findIdx? (· = '/') with
  | some j => some (s.data.length - 1 - j)
  | none => none

/-- `path.substring(0, path.lastIndexOf("/"))` as used by `renameFolder`
(JS `substring` clamps the negative end index of a missing slash to `0`). -/
def jsParentPath (p : String) : String :=
  match lastSlashIdx p with
  | none => ""
  | some i => ⟨p.data.take i⟩

end JsStr

namespace FolderService

/-- `FolderService.MAX_FOLDER_NAME_LENGTH`. -/
def MAX_FOLDER_NAME_LENGTH : Nat := 255

/-- `FolderService.MAX_FOLDER_DEPTH`. -/
def MAX_FOLDER_DEPTH : Int := 20

/-- `FolderService.RESERVED_NAMES`. -/
def RESERVED_NAMES : List String :=
  ["con", "prn", "aux", "nul",
   "com1", "com2", "com3", "com4", "com5", "com6", "com7", "com8", "com9",
   "lpt1", "lpt2", "lpt3", "lpt4", "lpt5", "lpt6", "lpt7", "lpt8", "lpt9"]

/-- Character class of `FolderService.FORBIDDEN_CHARS`:
`[<>:"|?*\x00-\x1F\/\\]`. -/
def forbiddenChar (c : Char) : Bool :=
  c = '<' || c = '>' || c = ':' || c = '"' || c = '|' || c = '?' || c = '*' ||
    c.toNat ≤ 0x1F || c = '/' || c = '\\'

/-- `FORBIDDEN_CHARS.test(s)` where `FORBIDDEN_CHARS` is a `g`-flagged regex:
matching starts at the regex object's persistent `lastIndex`; on a match the
`lastIndex` advances past it and the call answers `true`; on no match the
`lastIndex` resets to `0` and the call answers `false`. -/
def forbiddenTest (s : String) (lastIndex : Nat) : Bool × Nat :=
  match (s.data.drop lastIndex).findIdx? forbiddenChar with
  | some j => (true, lastIndex + j + 1)
  | none => (false, 0)

/-- `FolderService.validateFolderName`, embedded as a state-passing function
on the shared regex's `lastIndex` (second component of argument and result). -/
def validateFolderName (name : String) (lastIndex : Nat) :
    Except Err String × Nat :=
  if name = "" then (.error .nameRequired, lastIndex)
  else
    let trimmed := JsStr.jsTrim name
    if trimmed.length = 0 then (.error .nameEmpty, lastIndex)
    else if MAX_FOLDER_NAME_LENGTH < trimmed.length then
      (.error .nameTooLong, lastIndex)
    else
      match forbiddenTest trimmed lastIndex with
      | (true, li) => (.error .invalidChars, li)
      | (false, li) =>
        if JsStr.jsIncludes trimmed ".." then (.error .nameHasDotDot, li)
        else if RESERVED_NAMES.any (fun r => r = JsStr.jsToLower trimmed) then
          (.error .nameReserved, li)
        else if JsStr.jsStartsWith trimmed "." || JsStr.jsEndsWith trimmed "." then
          (.error .nameDotEdge, li)
        else (.ok trimmed, li)

end FolderService

/-- The owner's user document, projected to the quota fields the core
reads and writes (`User.model.js`). `storageUsed` is an `Int`: whether the
code can drive it negative is exactly what is under verification. -/
structure UserDoc where
  id : Nat
  storageUsed : Int
  storageLimit : Int
  deriving Repr, DecidableEq

/-- A folder document (`Folder.model.js`), projected to the fields the
embedded operations read or write. -/
structure FolderDoc where
  id : Nat
  ownerId : Nat
  name : String
  parentFolderId : Option Nat
  path : String
  depth : Int
  isDeleted : Bool
  deletedAt : Option Nat
  folderCount : Int
  deriving Repr, DecidableEq

/-- `status` enum of `File.model.js`. -/
inductive FileStatus where
  | pending | active | failed
  deriving Repr, DecidableEq

/-- `previewStatus` enum of `File.model.js`. -/
inductive PreviewStatus where
  | none | processing | ready | failed
  deriving Repr, DecidableEq

/-- A file document (`File.model.js`), projected to the fields the embedded
operations read or write (tags and description are never consulted by them). -/
structure FileDoc where
  id : Nat
  ownerId : Nat
  parentFolderId : Nat
  fileName : String
  size : Nat
  mimeType : String
  status : FileStatus
  isDeleted : Bool
  deletedAt : Option Nat
  s3Key : String
  hasPreview : Bool
  previewStatus : PreviewStatus
  deriving Repr, DecidableEq

/-- The document store: the owner's user document plus the folder and file
collections. `nextFileId` models Mongo's fresh `_id` generation for
`File.create`. -/
structure St where
  user : UserDoc
  folders : List FolderDoc
  files : List FileDoc
  nextFileId : Nat
  deriving Repr, DecidableEq

/-- `User.findByIdAndUpdate(uid, { $inc: { storageUsed: amt } })`:
unconditional atomic increment. -/
def incStorage (st : St) (uid : Nat) (amt : Int) : St :=
  if st.user.id = uid then
    { st with user := { st.user with storageUsed := st.user.storageUsed + amt } }
  else st

/-- `User.findOneAndUpdate({ _id: uid, storageUsed: { $gte: amt } },
{ $inc: { storageUsed: -amt } })`: the guarded decrement; `none` models a
`null` result (guard not met, nothing updated). -/
def guardedDecStorage (st : St) (uid : Nat) (amt : Int) : Option St :=
  if st.user.id = uid ∧ amt ≤ st.user.storageUsed then
    some { st with user := { st.user with storageUsed := st.user.storageUsed - amt } }
  else none

/-- `Folder.findByIdAndUpdate(pid, { $inc: { folderCount: k } })` over the
folder collection (a no-op when `pid` is `null` or matches nothing). -/
def adjustFolderCount (folders : List FolderDoc) (pid : Option Nat) (k : Int) :
    List FolderDoc :=
  folders.map (fun g =>
    if some g.id = pid then { g with folderCount := g.folderCount + k } else g)

namespace FolderModel

/-- The regex `/^\/[^/]/` used by `getDescendants` for the root folder:
a `/` followed by a non-`/` character. -/
def rootChildPat (p : String) : Bool :=
  match p.data with
  | '/' :: c :: _ => c ≠ '/'
  | _ => false

/-- The path filter of `getDescendants`: the root pattern, or the anchored
prefix regex `^<escaped base>/` for a non-root base path. -/
def descendantPathMatch (basePath p : String) : Bool :=
  if basePath = "/" then rootChildPat p
  else JsStr.jsStartsWith p (basePath ++ "/")

/-- `folderSchema.methods.getDescendants`: the non-deleted folders of the
same owner whose path extends this folder's path (the `sort({depth: 1})`
clause is dropped; every consumer is order-independent). -/
def getDescendants (fol : FolderDoc) (folders : List FolderDoc) : List FolderDoc :=
  folders.filter (fun g =>
    g.ownerId = fol.ownerId && descendantPathMatch fol.path g.path && !g.isDeleted)

end FolderModel

namespace FolderService

/-- `Folder.findOne({ _id, ownerId, isDeleted: false })`, the lookup behind
`FolderService.getFolder`. -/
def findFolder (st : St) (uid fid : Nat) : Option FolderDoc :=
  st.folders.find? (fun g => g.id = fid && g.ownerId = uid && !g.isDeleted)

/-- The anchored case-insensitive regex `^<escaped name>$` with the `i` flag,
used for sibling duplicate checks: case-insensitive name equality. -/
def nameMatchesCI (a b : String) : Bool :=
  JsStr.jsToLower a = JsStr.jsToLower b

/-- `FolderService.renameFolder`. `li` is the shared forbidden-chars regex's
persistent `lastIndex` at call time; a successful validation always resets it
to `0`, so the regex state after a successful rename is `0` and is not
returned. -/
def renameFolder (uid fid : Nat) (newName : String) (li : Nat) (st : St) :
    Except Err (FolderDoc × St) :=
  match findFolder st uid fid with
  | none => .error .folderNotFound
  | some folder =>
    if folder.path = "/" then .error .cannotRenameRoot
    else
      match (validateFolderName newName li).1 with
      | .error e => .error e
      | .ok sanitizedName =>
        if JsStr.jsToLower folder.name = JsStr.jsToLower sanitizedName then
          .ok (folder, st)
        else if st.folders.any (fun g =>
            g.parentFolderId = folder.parentFolderId &&
            nameMatchesCI g.name sanitizedName &&
            !g.isDeleted && g.id ≠ folder.id) then
          .error .duplicateName
        else
          let parentPath := JsStr.jsParentPath folder.path
          let newPath := if parentPath = "" then "/" ++ sanitizedName
                         else parentPath ++ "/" ++ sanitizedName
          if 1024 < newPath.length then .error .pathTooLong
          else
            let descendants := FolderModel.getDescendants folder st.folders
            let oldPath := folder.path
            let folder' := { folder with name := sanitizedName, path := newPath }
            let savedFolders := st.folders.map
                (fun g => if g.id = folder.id then folder' else g)
            let updates := descendants.map
                (fun d => (d.id, JsStr.jsReplaceFirst d.path oldPath newPath))
            let bulkFolders := savedFolders.map (fun g =>
                match updates.find? (fun u => u.1 = g.id) with
                | some u => { g with path := u.2 }
                | none => g)
            .ok (folder', { st with folders := bulkFolders })

/-- `FolderService.moveFolder`. -/
def moveFolder (uid fid npid : Nat) (st : St) : Except Err (FolderDoc × St) :=
  match findFolder st uid fid with
  | none => .error .folderNotFound
  | some folder =>
    if folder.path = "/" then .error .cannotMoveRoot
    else
      match findFolder st uid npid with
      | none => .error .folderNotFound
      | some newParent =>
        if JsStr.jsStartsWith newParent.path folder.path then
          .error .invalidDestination
        else
          let newDepth := newParent.depth + 1
          let descendants := FolderModel.getDescendants folder st.folders
          let maxDescendantDepth :=
            match descendants with
            | [] => folder.depth
            | d :: ds => ds.foldl (fun m x => max m x.depth) d.depth
          let depthIncrease := newDepth - folder.depth
          if MAX_FOLDER_DEPTH < maxDescendantDepth + depthIncrease then
            .error .depthExceeded
          else if st.folders.any (fun g =>
              g.parentFolderId = some newParent.id &&
              nameMatchesCI g.name folder.name &&
              !g.isDeleted && g.id ≠ folder.id) then
            .error .duplicateName
          else
            let newPath := if newParent.path = "/" then "/" ++ folder.name
                           else newParent.path ++ "/" ++ folder.name
            if 1024 < newPath.length then .error .pathTooLong
            else
              let decOld := adjustFolderCount st.folders folder.parentFolderId (-1)
              let incNew := adjustFolderCount decOld (some newParent.id) 1
              let oldPath := folder.path
              let folder' :=
                { folder with
                  parentFolderId := some newParent.id
                  path := newPath
                  depth := newDepth }
              let saved := incNew.map (fun g =>
                  if g.id = folder.id then
                    { g with
                      parentFolderId := some newParent.id
                      path := newPath
                      depth := newDepth }
                  else g)
              let updates := descendants.map (fun d =>
                  (d.id, JsStr.jsReplaceFirst d.path oldPath newPath,
                   d.depth + depthIncrease))
              let bulk := saved.map (fun g =>
                  match updates.find? (fun u => u.1 = g.id) with
                  | some u => { g with path := u.2.1, depth := u.2.2 }
                  | none => g)
              .ok (folder', { st with folders := bulk })

/-- The ids a cascading `deleteFolder` soft-deletes: the folder itself and
its live descendants (`deletedFolderIds` in the source). -/
def deletedFolderIds (folder : FolderDoc) (folders : List FolderDoc) : List Nat :=
  folder.id :: (FolderModel.getDescendants folder folders).map (·.id)

/-- The `File.find` of the cascade branch: non-deleted `active` files living
in any of the given folders. -/
def cascadeFiles (files : List FileDoc) (ids : List Nat) : List FileDoc :=
  files.filter (fun f =>
    ids.contains f.parentFolderId && !f.isDeleted && f.status = FileStatus.active)

/-- The cascade's `reduce((sum, f) => sum + f.size, 0)` over those files. -/
def cascadeReclaim (files : List FileDoc) (ids : List Nat) : Nat :=
  (cascadeFiles files ids).foldl (fun s f => s + f.size) 0

/-- `folderSchema.methods.canBeDeleted`: no non-deleted file lives in this
folder or any of its descendants. -/
def canBeDeleted (folder : FolderDoc) (st : St) : Bool :=
  let descendants := FolderModel.getDescendants folder st.folders
  let folderIds := folder.id :: descendants.map (·.id)
  (st.files.filter (fun f =>
    folderIds.contains f.parentFolderId && !f.isDeleted)).length = 0

/-- Result object of `FolderService.deleteFolder`. -/
structure DeleteFolderResult where
  success : Bool
  deletedFolders : Nat
  storageReclaimed : Nat
  deriving Repr, DecidableEq

/-- `FolderService.deleteFolder`: soft delete with optional cascade into
descendant folders and their active files, reclaiming their total size by a
single guarded decrement whose failure is silently skipped. -/
def deleteFolder (uid fid : Nat) (cascade force : Bool) (now : Nat) (st : St) :
    Except Err (DeleteFolderResult × St) :=
  match findFolder st uid fid with
  | none => .error .folderNotFound
  | some folder =>
    if folder.path = "/" then .error .cannotDeleteRoot
    else if !force && !(canBeDeleted folder st) then .error .folderNotEmpty
    else
      let step : Nat × Nat × St :=
        if cascade then
          let deletedIds := deletedFolderIds folder st.folders
          let markedFolders := st.folders.map (fun g =>
              if deletedIds.contains g.id then
                { g with isDeleted := true, deletedAt := some now } else g)
          let st1 := { st with folders := markedFolders }
          let files := cascadeFiles st1.files deletedIds
          if files.isEmpty then (deletedIds.length, 0, st1)
          else
            let fileIds := files.map (·.id)
            let totalStorageReclaimed : Nat := files.foldl (fun s f => s + f.size) 0
            let markedFiles := st1.files.map (fun f =>
                if fileIds.contains f.id then
                  { f with isDeleted := true, deletedAt := some now } else f)
            let st2 := { st1 with files := markedFiles }
            let st3 :=
              if 0 < totalStorageReclaimed then
                match guardedDecStorage st2 uid (totalStorageReclaimed : Int) with
                | some st' => st'
                | none => st2
              else st2
            (deletedIds.length, totalStorageReclaimed, st3)
        else
          let markedFolders := st.folders.map (fun g =>
              if g.id = folder.id then
                { g with isDeleted := true, deletedAt := some now } else g)
          (1, 0, { st with folders := markedFolders })
      let stA := step.2.2
      let stB :=
        match folder.parentFolderId with
        | some pid =>
          { stA with folders := adjustFolderCount stA.folders (some pid) (-1) }
        | none => stA
      .ok ({ success := true, deletedFolders := step.1,
             storageReclaimed := step.2.1 }, stB)

end FolderService

namespace FileService

/-- The upload-intent DTO fields the embedded code consults (tags and
description are only copied into fields the verified properties never read). -/
structure IntentDto where
  filename : String
  mimeType : String
  size : Nat
  parentFolderId : Nat
  deriving Repr, DecidableEq

/-- `FileService.isPreviewSupported`. -/
def isPreviewSupported (mimeType : String) : Bool :=
  ["image/jpeg", "image/jpg", "image/png", "image/webp", "image/heic",
   "image/heif", "image/tiff", "image/gif", "image/avif",
   "video/mp4", "video/mpeg", "video/quicktime", "video/x-msvideo",
   "video/webm", "video/x-matroska",
   "application/pdf"].any (fun t => t = mimeType)

/-- The 50 MiB cap of `confirmUpload`. -/
def MAX_SIZE : Nat := 50 * 1024 * 1024

/-- Answer of the blob store's `headObject` probe: `ContentLength`,
`ContentType`, and the `ownerid` entry of the object metadata (absent when
the upload carried no metadata). -/
structure HeadObject where
  contentLength : Nat
  contentType : String
  metaOwnerId : Option Nat
  deriving Repr, DecidableEq

/-- `FileService.createUploadIntent`: field presence checks, optimistic quota
check against the declared size, destination-folder validation, and creation
of a `pending` file row. The presigned-URL request is external and returns
only the fresh file id here. -/
def createUploadIntent (uid : Nat) (dto : IntentDto) (st : St) :
    Except Err (Nat × St) :=
  if dto.filename = "" ∨ dto.mimeType = "" ∨ dto.size = 0 then
    .error .missingFields
  else if uid ≠ st.user.id then .error .userNotFound
  else if st.user.storageLimit < st.user.storageUsed + (dto.size : Int) then
    .error .quotaExceeded
  else
    match st.folders.find? (fun g =>
        g.id = dto.parentFolderId && g.ownerId = uid && !g.isDeleted) with
    | none => .error .invalidFolder
    | some folder =>
      let fileId := st.nextFileId
      let file : FileDoc :=
        { id := fileId
          ownerId := uid
          parentFolderId := folder.id
          fileName := dto.filename
          size := dto.size
          mimeType := dto.mimeType
          status := .pending
          isDeleted := false
          deletedAt := none
          s3Key := "users/" ++ toString uid ++ "/files/" ++ toString fileId
                     ++ "/original"
          hasPreview := false
          previewStatus :=
            if isPreviewSupported dto.mimeType then .processing else .none }
      .ok (fileId, { st with files := st.files ++ [file],
                             nextFileId := fileId + 1 })

/-- `FileService.confirmUpload`: requires a `pending` owned file, probes the
blob store (the `head` argument), validates metadata ownership, the size
bounds and the MIME type, then overwrites `size`/`mimeType` from the probe,
activates the file and increments the owner's `storageUsed` by the verified
size — unconditionally, with no check against `storageLimit`. -/
def confirmUpload (uid fid : Nat) (head : Option HeadObject) (st : St) :
    Except Err (FileDoc × St) :=
  match st.files.find? (fun f =>
      f.id = fid && f.ownerId = uid && f.status = FileStatus.pending) with
  | none => .error .invalidOrAlreadyConfirmed
  | some file =>
    match head with
    | none => .error .notFoundInStorage
    | some h =>
      if h.metaOwnerId ≠ some uid then .error .ownershipMismatch
      else
        let actualSize := h.contentLength
        if actualSize = 0 then .error .emptyUpload
        else if MAX_SIZE < actualSize then .error .tooLarge
        else if file.mimeType ≠ "" ∧ h.contentType ≠ file.mimeType then
          .error .mimeMismatch
        else
          let file' :=
            { file with
              size := actualSize
              mimeType := h.contentType
              status := FileStatus.active }
          let savedFiles := st.files.map
              (fun g => if g.id = file.id then file' else g)
          let st1 := incStorage { st with files := savedFiles } uid
              (actualSize : Int)
          .ok (file', st1)

/-- Result object of `FileService.deleteFile`. -/
structure DeleteFileResult where
  success : Bool
  storageReclaimed : Nat
  deriving Repr, DecidableEq

/-- `FileService.deleteFile`: reclaims the size of an `active` file through
the guarded decrement before the soft delete; a failed guard aborts the call
with the quota-inconsistency error and the file is left un-deleted. -/
def deleteFile (uid fid : Nat) (now : Nat) (st : St) :
    Except Err (DeleteFileResult × St) :=
  match st.files.find? (fun f =>
      f.id = fid && f.ownerId = uid && !f.isDeleted) with
  | none => .error .fileNotFound
  | some file =>
    let storageToReclaim := if file.status = FileStatus.active then file.size else 0
    let afterQuota : Except Err St :=
      if 0 < storageToReclaim then
        match guardedDecStorage st uid (storageToReclaim : Int) with
        | some st' => .ok st'
        | none => .error .quotaInconsistency
      else .ok st
    match afterQuota with
    | .error e => .error e
    | .ok st1 =>
      let file' := { file with isDeleted := true, deletedAt := some now }
      let saved := st1.files.map (fun g => if g.id = file.id then file' else g)
      .ok ({ success := true, storageReclaimed := storageToReclaim },
           { st1 with files := saved })

/-- Result object of `FileService.batchDeleteFiles`. `totalSizeReclaimed` is
an `Int` because the code adjusts it downward after the fact. -/
structure BatchDeleteResult where
  deleted : Nat
  failed : Nat
  totalSizeReclaimed : Int
  deriving Repr, DecidableEq

/-- `FileService.batchDeleteFiles`. `saveFails` is the external fault oracle:
ids whose per-file `save()` rejects. One guarded decrement for the whole
batch happens first; per-file failures are counted and their already-
decremented active sizes re-incremented as compensation. -/
def batchDeleteFiles (uid : Nat) (fileIds saveFails : List Nat) (now : Nat)
    (st : St) : Except Err (BatchDeleteResult × St) :=
  if fileIds.isEmpty then .error .fileIdsRequired
  else
    let files := st.files.filter (fun f =>
        fileIds.contains f.id && f.ownerId = uid && !f.isDeleted)
    if files.isEmpty then .error .noValidFiles
    else
      let totalSizeReclaimed : Nat := files.foldl
          (fun s f => if f.status = FileStatus.active then s + f.size else s) 0
      let afterQuota : Except Err St :=
        if 0 < totalSizeReclaimed then
          match guardedDecStorage st uid (totalSizeReclaimed : Int) with
          | some st' => .ok st'
          | none => .error .quotaInconsistency
        else .ok st
      match afterQuota with
      | .error e => .error e
      | .ok st1 =>
        let okFiles := files.filter (fun f => !saveFails.contains f.id)
        let failedFiles := files.filter (fun f => saveFails.contains f.id)
        let savedFiles := st1.files.map (fun g =>
            if okFiles.any (fun f => f.id = g.id) then
              { g with isDeleted := true, deletedAt := some now } else g)
        let st2 := { st1 with files := savedFiles }
        let deleted := okFiles.length
        let failed := failedFiles.length
        let rollbackAmount : Nat := failedFiles.foldl
            (fun s f => if f.status = FileStatus.active then s + f.size else s) 0
        let outcome : Int × St :=
          if 0 < failed ∧ 0 < rollbackAmount then
            ((totalSizeReclaimed : Int) - (rollbackAmount : Int),
             incStorage st2 uid (rollbackAmount : Int))
          else ((totalSizeReclaimed : Int), st2)
        .ok ({ deleted := deleted, failed := failed,
               totalSizeReclaimed := outcome.1 }, outcome.2)

end FileService

/-- One call in a trace of the quota-relevant operations: upload intents,
confirmations, single/batch file deletion and folder deletion, with their
external oracles (`head` answer, per-file save failures) as data. -/
inductive Op where
  | intent (dto : FileService.IntentDto)
  | confirm (fileId : Nat) (head : Option FileService.HeadObject)
  | delete (fileId : Nat) (now : Nat)
  | batchDelete (fileIds saveFails : List Nat) (now : Nat)
  | delFolder (folderId : Nat) (cascade force : Bool) (now : Nat)
  deriving Repr

/-- Run one operation, projecting away its result value. -/
def runOp (uid : Nat) (op : Op) (st : St) : Except Err St :=
  match op with
  | .intent dto => (FileService.createUploadIntent uid dto st).map (·.2)
  | .confirm fid head => (FileService.confirmUpload uid fid head st).map (·.2)
  | .delete fid now => (FileService.deleteFile uid fid now st).map (·.2)
  | .batchDelete ids fails now =>
    (FileService.batchDeleteFiles uid ids fails now st).map (·.2)
  | .delFolder fid c f now =>
    (FolderService.deleteFolder uid fid c f now st).map (·.2)

/-- A thrown operation leaves the store as it was (every `throw` of the
embedded code precedes its call's first store mutation). -/
def stepOp (uid : Nat) (st : St) (op : Op) : St :=
  match runOp uid op st with
  | .ok st' => st'
  | .error _ => st

/-- Run a serial trace of operations. -/
def runOps (uid : Nat) (ops : List Op) (st : St) : St :=
  ops.foldl (stepOp uid) st

namespace Cex

/-! Concrete documents and stores used by the closed counterexamples and
witnesses below. -/

/-- An owner with 100 bytes of quota, none of it used. -/
def user0 : UserDoc := { id := 1, storageUsed := 0, storageLimit := 100 }

/-- A destination folder for uploads. -/
def folder10 : FolderDoc :=
  { id := 10, ownerId := 1, name := "d", parentFolderId := some 9, path := "/d",
    depth := 1, isDeleted := false, deletedAt := none, folderCount := 0 }

/-- Store with one owner, one folder, no files. -/
def st0 : St :=
  { user := user0, folders := [folder10], files := [], nextFileId := 0 }

/-- An intent declaring a 10-byte upload. -/
def dto0 : FileService.IntentDto :=
  { filename := "f", mimeType := "t", size := 10, parentFolderId := 10 }

/-- A blob-store probe reporting 1000 actual bytes for the 10-byte intent. -/
def head0 : FileService.HeadObject :=
  { contentLength := 1000, contentType := "t", metaOwnerId := some 1 }

/-- `st0` after the 10-byte intent (one pending file, id 0). -/
def st1 : St := stepOp 1 st0 (.intent dto0)

/-- `st1` after confirming the upload with the 1000-byte probe `head0`. -/
def st2 : St := stepOp 1 st1 (.confirm 0 (some head0))

/-- The file document returned by that confirmation. -/
def f0 : FileDoc :=
  { id := 0, ownerId := 1, parentFolderId := 10, fileName := "f", size := 1000,
    mimeType := "t", status := .active, isDeleted := false, deletedAt := none,
    s3Key := "users/1/files/0/original", hasPreview := false,
    previewStatus := .none }

/-- A root folder. -/
def rootF : FolderDoc :=
  { id := 1, ownerId := 1, name := "Home", parentFolderId := none, path := "/",
    depth := 0, isDeleted := false, deletedAt := none, folderCount := 2 }

/-- Folder `/a`. -/
def folA : FolderDoc :=
  { id := 2, ownerId := 1, name := "a", parentFolderId := some 1, path := "/a",
    depth := 1, isDeleted := false, deletedAt := none, folderCount := 0 }

/-- Folder `/ab`: a sibling of `/a`, not a descendant, whose path happens to
extend `/a` without an intervening slash. -/
def folAB : FolderDoc :=
  { id := 3, ownerId := 1, name := "ab", parentFolderId := some 1, path := "/ab",
    depth := 1, isDeleted := false, deletedAt := none, folderCount := 0 }

/-- Store for the move-destination test: root, `/a` and `/ab`. -/
def stC3 : St :=
  { user := user0, folders := [rootF, folA, folAB], files := [], nextFileId := 0 }

/-- A `pending` (never confirmed) file living in `/a`. -/
def pendFile : FileDoc :=
  { id := 5, ownerId := 1, parentFolderId := 2, fileName := "p", size := 7,
    mimeType := "t", status := .pending, isDeleted := false, deletedAt := none,
    s3Key := "k5", hasPreview := false, previewStatus := .none }

/-- Store for the cascade-delete test: `/a` holds one pending file. -/
def stC4 : St :=
  { user := user0, folders := [rootF, folA], files := [pendFile], nextFileId := 6 }

/-- An active file of a given id and size in folder 10. -/
def aFile (i sz : Nat) : FileDoc :=
  { id := i, ownerId := 1, parentFolderId := 10, fileName := "f", size := sz,
    mimeType := "t", status := .active, isDeleted := false, deletedAt := none,
    s3Key := "k" ++ toString i, hasPreview := false, previewStatus := .none }

/-- Store for the batch-delete test: active files of sizes 10, 20 and 30,
owner's `storageUsed` a parameter. -/
def stC7 (u0 : Int) : St :=
  { user := { id := 1, storageUsed := u0, storageLimit := 1000000 },
    folders := [folder10], files := [aFile 1 10, aFile 2 20, aFile 3 30],
    nextFileId := 4 }

/-- The result pair of deleting the 10-byte active file from `stC7 100`
(the fallback branch is never taken). -/
def delRes : FileService.DeleteFileResult × St :=
  match FileService.deleteFile 1 1 5 (stC7 100) with
  | .ok p => p
  | .error _ => ({ success := false, storageReclaimed := 0 }, stC7 100)

/-- Non-deleted descendant `/a/b` of `/a`. -/
def folB : FolderDoc :=
  { id := 4, ownerId := 1, name := "b", parentFolderId := some 2, path := "/a/b",
    depth := 2, isDeleted := false, deletedAt := none, folderCount := 0 }

/-- Soft-deleted descendant `/a/c` of `/a`. -/
def folCdel : FolderDoc :=
  { id := 6, ownerId := 1, name := "c", parentFolderId := some 2, path := "/a/c",
    depth := 2, isDeleted := true, deletedAt := some 1, folderCount := 0 }

/-- Store for the rename/move cascade tests: `/a` has a live descendant
`/a/b`, a soft-deleted descendant `/a/c`, and the sibling `/ab`. -/
def stRen : St :=
  { user := user0, folders := [rootF, folA, folAB, folB, folCdel], files := [],
    nextFileId := 0 }

/-- An `active` 7-byte file living in `/a`. -/
def actFile : FileDoc :=
  { id := 7, ownerId := 1, parentFolderId := 2, fileName := "q", size := 7,
    mimeType := "t", status := .active, isDeleted := false, deletedAt := none,
    s3Key := "k7", hasPreview := false, previewStatus := .none }

/-- Store for the cascade-delete witness: `/a` holds one active and one
pending file, with 10 bytes of quota in use. -/
def stC4b : St :=
  { user := { id := 1, storageUsed := 10, storageLimit := 100 },
    folders := [rootF, folA], files := [actFile, pendFile], nextFileId := 8 }

/-- The result pair of cascade-deleting `/a` in `stC4b` (the fallback branch
is never taken). -/
def delFolRes : FolderService.DeleteFolderResult × St :=
  match FolderService.deleteFolder 1 2 true true 3 stC4b with
  | .ok p => p
  | .error _ => ({ success := false, deletedFolders := 0, storageReclaimed := 0 }, stC4b)

/-- The result pair of renaming `/a` to `/x` in `stRen` (the fallback branch
is never taken). -/
def renRes : FolderDoc × St :=
  match FolderService.renameFolder 1 2 "x" 0 stRen with
  | .ok p => p
  | .error _ => (rootF, stRen)

/-- The result pair of renaming `/a` to the dollar-laden name `x$&y` in
`stRen` (the fallback branch is never taken). -/
def renDollarRes : FolderDoc × St :=
  match FolderService.renameFolder 1 2 "x$&y" 0 stRen with
  | .ok p => p
  | .error _ => (rootF, stRen)

/-- The result pair of moving `/ab` under `/a` in `stRen` (the fallback
branch is never taken). -/
def movRes : FolderDoc × St :=
  match FolderService.moveFolder 1 3 2 stRen with
  | .ok p => p
  | .error _ => (rootF, stRen)

end Cex

/-! ## Helper lemmas -/

theorem except_map_ok {α β γ : Type} {e : Except γ α} {g : α → β} {b : β}
    (h : e.map g = .ok b) : ∃ a, e = .ok a ∧ g a = b := by
  cases e with
  | error x => simp [Except.map] at h
  | ok a =>
    refine ⟨a, rfl, ?_⟩
    simpa [Except.map] using h

theorem guardedDecStorage_some {st : St} {uid : Nat} {amt : Int} {st' : St}
    (h : guardedDecStorage st uid amt = some st') :
    st' = { st with user := { st.user with
              storageUsed := st.user.storageUsed - amt } } ∧
      st.user.id = uid ∧ amt ≤ st.user.storageUsed := by
  unfold guardedDecStorage at h
  split at h
  · next hc =>
    refine ⟨?_, hc.1, hc.2⟩
    injection h with h'
    exact h'.symm
  · simp at h

theorem incStorage_used (st : St) (uid : Nat) (amt : Int) :
    (incStorage st uid amt).user.storageUsed =
      if st.user.id = uid then st.user.storageUsed + amt
      else st.user.storageUsed := by
  unfold incStorage
  by_cases h : st.user.id = uid <;> simp [h]

theorem incStorage_files (st : St) (uid : Nat) (amt : Int) :
    (incStorage st uid amt).files = st.files := by
  unfold incStorage
  split <;> rfl

theorem str_append_assoc (a b c : String) : (a ++ b) ++ c = a ++ (b ++ c) :=
  String.ext (List.append_assoc a.data b.data c.data)

theorem jsStartsWith_exists_suffix {s p : String} (h : JsStr.jsStartsWith s p = true) :
    ∃ t : String, s = p ++ t := by
  unfold JsStr.jsStartsWith at h
  obtain ⟨t, ht⟩ := List.isPrefixOf_iff_prefix.mp h
  exact ⟨⟨t⟩, String.ext ht.symm⟩

theorem dollarSubstAux_id (m b a : List Char) :
    ∀ rep : List Char, (∀ c ∈ rep, ¬(c = '$')) →
      JsStr.dollarSubstAux m b a rep = rep
  | [] => fun _ => rfl
  | [c] => fun _ => rfl
  | c :: d :: rest => fun h => by
    have hc : ¬(c = '$') := h c (List.mem_cons_self c (d :: rest))
    show JsStr.dollarSubstAux m b a (c :: d :: rest) = c :: d :: rest
    unfold JsStr.dollarSubstAux
    rw [if_neg hc]
    rw [dollarSubstAux_id m b a (d :: rest)
      (fun x hx => h x (List.mem_cons_of_mem c hx))]

theorem jsReplaceFirst_append (p t r : String)
    (hr : ∀ c ∈ r.data, ¬(c = '$')) :
    JsStr.jsReplaceFirst (p ++ t) p r = r ++ t := by
  have hpre : p.data.isPrefixOf (p ++ t).data = true := by
    rw [List.isPrefixOf_iff_prefix]
    exact ⟨t.data, rfl⟩
  unfold JsStr.jsReplaceFirst JsStr.firstOccurAux
  rw [if_pos hpre]
  refine String.ext ?_
  show List.take 0 _ ++
      JsStr.dollarSubstAux p.data (List.take 0 _)
        (List.drop (0 + p.data.length) _) r.data ++
      List.drop (0 + p.data.length) (p.data ++ t.data) = _
  rw [dollarSubstAux_id _ _ _ _ hr]
  simp [List.drop_left]

theorem no_self_extend {p q : String} (hq : q.data ≠ []) (h : p = p ++ q) : False := by
  have h3 : p.data ++ ([] : List Char) = p.data ++ q.data := by
    simpa using congrArg String.data h
  exact hq (List.append_cancel_left h3).symm

theorem descendant_suffix {folder g : FolderDoc}
    (hroot : ¬(folder.path = "/"))
    (hmatch : FolderModel.descendantPathMatch folder.path g.path = true) :
    ∃ t' : String, g.path = folder.path ++ ("/" ++ t') := by
  simp only [FolderModel.descendantPathMatch] at hmatch
  rw [if_neg hroot] at hmatch
  obtain ⟨t', ht⟩ := jsStartsWith_exists_suffix hmatch
  exact ⟨t', by rw [ht, str_append_assoc]⟩

theorem mem_getDescendants_sub {folder g : FolderDoc} {folders : List FolderDoc}
    (h : g ∈ FolderModel.getDescendants folder folders) :
    g ∈ folders ∧ ¬(g.isDeleted = true) ∧
      FolderModel.descendantPathMatch folder.path g.path = true := by
  simp only [FolderModel.getDescendants, List.mem_filter, Bool.and_eq_true,
    decide_eq_true_eq, Bool.not_eq_true'] at h
  exact ⟨h.1, by simp [h.2.2], h.2.1.2⟩

theorem findFolder_props {st : St} {uid fid : Nat} {folder : FolderDoc}
    (h : FolderService.findFolder st uid fid = some folder) :
    folder ∈ st.folders ∧ folder.isDeleted = false := by
  have hm := List.mem_of_find?_eq_some h
  have hp := List.find?_some h
  simp only [Bool.and_eq_true, decide_eq_true_eq, Bool.not_eq_true'] at hp
  exact ⟨hm, hp.2⟩

theorem find?_update_none {β : Type} (folders : List FolderDoc) (folder g : FolderDoc)
    (val : FolderDoc → β)
    (hinj : ∀ g1 ∈ folders, ∀ g2 ∈ folders, g1.id = g2.id → g1 = g2)
    (hg : g ∈ folders) (hgdel : g.isDeleted = true) :
    ((FolderModel.getDescendants folder folders).map (fun d => (d.id, val d))).find?
      (fun u => u.1 = g.id) = none := by
  rw [List.find?_eq_none]
  intro u hm
  obtain ⟨d, hd, hdu⟩ := List.mem_map.mp hm
  obtain ⟨hdmem, hddel, -⟩ := mem_getDescendants_sub hd
  simp only [decide_eq_true_eq]
  intro heq
  rw [← hdu] at heq
  have : d = g := hinj _ hdmem _ hg heq
  rw [this] at hddel
  exact hddel hgdel

theorem rename_bulk_at (folders : List FolderDoc) (folder folder' : FolderDoc)
    (newPath : String)
    (hinj : ∀ g1 ∈ folders, ∀ g2 ∈ folders, g1.id = g2.id → g1 = g2)
    (hfolmem : folder ∈ folders)
    (hroot : ¬(folder.path = "/"))
    (i : Nat) (hi : i < folders.length)
    (hi' : i < ((folders.map (fun g => if g.id = folder.id then folder' else g)).map (fun g => match ((FolderModel.getDescendants folder folders).map (fun d => (d.id, JsStr.jsReplaceFirst d.path folder.path newPath))).find? (fun u => u.1 = g.id) with | some u => { g with path := u.2 } | none => g)).length)
    (hdesc : folders[i] ∈ FolderModel.getDescendants folder folders)
    (hnp : ∀ c ∈ newPath.data, ¬(c = '$')) :
    ∃ t : String, folders[i].path = folder.path ++ t ∧
      ((folders.map (fun g => if g.id = folder.id then folder' else g)).map (fun g => match ((FolderModel.getDescendants folder folders).map (fun d => (d.id, JsStr.jsReplaceFirst d.path folder.path newPath))).find? (fun u => u.1 = g.id) with | some u => { g with path := u.2 } | none => g))[i] =
      { folders[i] with path := newPath ++ t } := by
  have hgmem : folders[i] ∈ folders := List.getElem_mem hi
  obtain ⟨hdmem0, hdel0, hmatch0⟩ := mem_getDescendants_sub hdesc
  obtain ⟨t', ht⟩ := descendant_suffix hroot hmatch0
  have hneid : ¬(folders[i].id = folder.id) := by
    intro heq
    have heqd := hinj _ hgmem _ hfolmem heq
    refine no_self_extend (p := folder.path) (q := "/" ++ t') (by simp) ?_
    conv_lhs => rw [← heqd]
    exact ht
  refine ⟨"/" ++ t', ht, ?_⟩
  rw [List.getElem_map, List.getElem_map]
  rw [if_neg hneid]
  cases hfu : ((FolderModel.getDescendants folder folders).map
      (fun d => (d.id, JsStr.jsReplaceFirst d.path folder.path newPath))).find?
      (fun u => u.1 = folders[i].id) with
  | none =>
    exfalso
    rw [List.find?_eq_none] at hfu
    have hm : (folders[i].id, JsStr.jsReplaceFirst folders[i].path folder.path newPath) ∈
        (FolderModel.getDescendants folder folders).map
          (fun d => (d.id, JsStr.jsReplaceFirst d.path folder.path newPath)) :=
      List.mem_map_of_mem _ hdesc
    simpa using hfu _ hm
  | some u =>
    have humem := List.mem_of_find?_eq_some hfu
    have hup : u.1 = folders[i].id := by simpa using List.find?_some hfu
    obtain ⟨d, hd, hdu⟩ := List.mem_map.mp humem
    have hdmem : d ∈ folders := (mem_getDescendants_sub hd).1
    have hdid : d.id = folders[i].id := by
      rw [← hdu] at hup
      exact hup
    have hdg : d = folders[i] := hinj _ hdmem _ hgmem hdid
    subst hdg
    rw [← hdu]
    rw [ht, jsReplaceFirst_append _ _ _ hnp]

theorem adjustFolderCount_length (folders : List FolderDoc) (pid : Option Nat)
    (k : Int) : (adjustFolderCount folders pid k).length = folders.length := by
  simp [adjustFolderCount]

theorem adjustFolderCount_fields (folders : List FolderDoc) (pid : Option Nat)
    (k : Int) (i : Nat) (hi : i < folders.length)
    (hi' : i < (adjustFolderCount folders pid k).length) :
    ((adjustFolderCount folders pid k)[i]).id = (folders[i]).id ∧
    ((adjustFolderCount folders pid k)[i]).path = (folders[i]).path ∧
    ((adjustFolderCount folders pid k)[i]).depth = (folders[i]).depth ∧
    ((adjustFolderCount folders pid k)[i]).isDeleted = (folders[i]).isDeleted ∧
    ((adjustFolderCount folders pid k)[i]).deletedAt = (folders[i]).deletedAt := by
  simp only [adjustFolderCount, List.getElem_map]
  split <;> exact ⟨rfl, rfl, rfl, rfl, rfl⟩

theorem mem_map_update {l : List FileDoc} {file : FileDoc} (f' : FileDoc)
    (hmem : file ∈ l) : f' ∈ l.map (fun g => if g.id = file.id then f' else g) := by
  refine List.mem_map.mpr ⟨file, hmem, ?_⟩
  simp

theorem createUploadIntent_ok {uid : Nat} {dto : FileService.IntentDto} {st : St}
    {fid : Nat} {st' : St}
    (h : FileService.createUploadIntent uid dto st = .ok (fid, st')) :
    st'.user = st.user ∧ uid = st.user.id ∧
      st.user.storageUsed + (dto.size : Int) ≤ st.user.storageLimit := by
  unfold FileService.createUploadIntent at h
  split at h
  · simp at h
  · split at h
    · simp at h
    · split at h
      · simp at h
      · split at h
        · simp at h
        · next folder hfind =>
          simp only [Except.ok.injEq, Prod.mk.injEq] at h
          obtain ⟨-, rfl⟩ := h
          rename_i hmf huid hq _
          exact ⟨rfl, not_not.mp huid, not_lt.mp hq⟩

theorem confirmUpload_ok {uid fid : Nat} {head : Option FileService.HeadObject}
    {st : St} {f' : FileDoc} {st' : St}
    (h : FileService.confirmUpload uid fid head st = .ok (f', st')) :
    ∃ file h0,
      st.files.find? (fun f => f.id = fid && f.ownerId = uid &&
        f.status = FileStatus.pending) = some file ∧
      head = some h0 ∧
      f' = { file with
             size := h0.contentLength
             mimeType := h0.contentType
             status := FileStatus.active } ∧
      st' = incStorage { st with files := st.files.map (fun g => if g.id = file.id then f' else g) } uid (h0.contentLength : Int) := by
  unfold FileService.confirmUpload at h
  split at h
  · simp at h
  · next file hfind =>
    split at h
    · simp at h
    · next h0 =>
      split at h
      · simp at h
      · dsimp only at h
        repeat' split at h
        all_goals simp only [Except.ok.injEq, Prod.mk.injEq, reduceCtorEq] at h
        obtain ⟨rfl, rfl⟩ := h
        exact ⟨file, h0, hfind, rfl, rfl, rfl⟩

/-! ## Claim theorems -/

/-- **C9** — code bug: `validateFolderName` is not a pure function of its
argument. The class-level `FORBIDDEN_CHARS` regex carries the `g` flag, so
`.test()` resumes matching from the regex object's persistent `lastIndex`:
the first call on `"a<b"` rejects the forbidden `<` and leaves
`lastIndex = 2`, and the immediately following call on the very same name
finds no forbidden character from index 2 onward, resets the `lastIndex`,
and accepts `"a<b"` — so a name containing a forbidden character is *not*
rejected on every call. -/
theorem spec_C9_validateName_not_pure :
    FolderService.validateFolderName "a<b" 0 = (.error .invalidChars, 2) ∧
    FolderService.validateFolderName "a<b" 2 = (.ok "a<b", 0) :=
  ⟨rfl, rfl⟩

/-- **C2** — counterexample: the claim as stated is false. From
`storageUsed = 0`, `storageLimit = 100`, the serial trace
[`createUploadIntent` (declared size 10), `confirmUpload` (blob-reported
size 1000)] ends with `storageUsed = 1000 > 100 = storageLimit` even though
the `confirmUpload` succeeded: `confirmUpload` never re-checks the limit. -/
theorem spec_C2_counterexample :
    (FileService.confirmUpload 1 0 (some Cex.head0) Cex.st1).isOk = true ∧
    (runOps 1 [.intent Cex.dto0, .confirm 0 (some Cex.head0)] Cex.st0).user.storageLimit <
      (runOps 1 [.intent Cex.dto0, .confirm 0 (some Cex.head0)] Cex.st0).user.storageUsed := by
  exact ⟨rfl, by decide⟩

/-- **C2** (amended): the limit is enforced only at intent creation and only
against the declared size — a successful `createUploadIntent` leaves
`storageUsed` unchanged and implies `storageUsed + declaredSize ≤
storageLimit` at that moment — while a successful `confirmUpload` adds the
blob-reported size to `storageUsed` with no re-check against `storageLimit`,
so immediately after a `confirmUpload` success `storageUsed` may exceed
`storageLimit` (e.g. when the blob-reported size exceeds the declared one,
or when several intents are admitted before either confirms). -/
theorem spec_C2_quota_checked_only_at_intent (uid : Nat)
    (dto : FileService.IntentDto) (st : St) (fid : Nat) (st' : St)
    (fid2 : Nat) (hd : Option FileService.HeadObject) (st2 : St)
    (f' : FileDoc) (st2' : St) (h0 : FileService.HeadObject) :
    (FileService.createUploadIntent uid dto st = .ok (fid, st') →
      st'.user.storageUsed = st.user.storageUsed ∧
      st.user.storageUsed + (dto.size : Int) ≤ st.user.storageLimit) ∧
    (FileService.confirmUpload uid fid2 hd st2 = .ok (f', st2') →
      hd = some h0 → st2.user.id = uid →
      st2'.user.storageUsed = st2.user.storageUsed + (h0.contentLength : Int)) := by
  constructor
  · intro h
    obtain ⟨hu, -, hq⟩ := createUploadIntent_ok h
    exact ⟨by rw [hu], hq⟩
  · intro h hh huid
    obtain ⟨file, h1, hfind, hh1, hf, hst⟩ := confirmUpload_ok h
    rw [hh] at hh1
    injection hh1 with e
    subst e
    subst hst
    rw [incStorage_used]
    simp [huid]

/-- Closed witness for the amended C2, at the same concrete trace as the
counterexample. -/
theorem spec_C2_witness :
    FileService.createUploadIntent 1 Cex.dto0 Cex.st0 = .ok (0, Cex.st1) ∧
    Cex.st1.user.storageUsed = Cex.st0.user.storageUsed ∧
    Cex.st0.user.storageUsed + (Cex.dto0.size : Int) ≤ Cex.st0.user.storageLimit ∧
    FileService.confirmUpload 1 0 (some Cex.head0) Cex.st1 = .ok (Cex.f0, Cex.st2) ∧
    Cex.st2.user.storageUsed = Cex.st1.user.storageUsed + (Cex.head0.contentLength : Int) := by
  have h1 : FileService.createUploadIntent 1 Cex.dto0 Cex.st0 = .ok (0, Cex.st1) := by rfl
  have h2 : FileService.confirmUpload 1 0 (some Cex.head0) Cex.st1 = .ok (Cex.f0, Cex.st2) := by rfl
  obtain ⟨hA, hB⟩ := spec_C2_quota_checked_only_at_intent 1 Cex.dto0 Cex.st0 0
    Cex.st1 0 (some Cex.head0) Cex.st1 Cex.f0 Cex.st2 Cex.head0
  obtain ⟨a1, a2⟩ := hA h1
  exact ⟨h1, a1, a2, h2, hB h2 rfl rfl⟩

/-- **C3** — counterexample: the claim's "exactly when" is false. With
`path(f) = "/a"` and `path(newParent) = "/ab"`, the destination is neither
`f` nor a descendant of `f` (its path is not `"/a"` and does not start with
`"/a/"`), yet `moveFolder` rejects it with `InvalidDestination`, because the
code's cycle test is a plain `startsWith(folder.path)` without the
trailing-slash boundary. -/
theorem spec_C3_counterexample :
    FolderService.moveFolder 1 2 3 Cex.stC3 = .error .invalidDestination ∧
    Cex.folAB.path ≠ Cex.folA.path ∧
    JsStr.jsStartsWith Cex.folAB.path (Cex.folA.path ++ "/") = false := by
  refine ⟨rfl, ?_, rfl⟩
  decide

/-- **C3** (amended): once the source folder and the destination are found
and the source is not the root, `moveFolder` fails with `InvalidDestination`
exactly when `path(newParent)` starts with `path(f)` as a plain string
prefix — which covers equality and true descendants, but also rejects any
folder whose path merely extends `path(f)`'s last segment (e.g. `/ab` for
`/a`). -/
theorem spec_C3_cycle_check_is_plain_prefix (uid fid npid : Nat) (st : St)
    (folder newParent : FolderDoc)
    (hf : FolderService.findFolder st uid fid = some folder)
    (hroot : folder.path ≠ "/")
    (hp : FolderService.findFolder st uid npid = some newParent) :
    FolderService.moveFolder uid fid npid st = .error .invalidDestination ↔
      JsStr.jsStartsWith newParent.path folder.path = true := by
  unfold FolderService.moveFolder
  simp only [hf, hp]
  rw [if_neg hroot]
  by_cases hsw : JsStr.jsStartsWith newParent.path folder.path = true
  · simp [hsw]
  · rw [Bool.not_eq_true] at hsw
    simp only [hsw, Bool.false_eq_true, if_false, iff_false]
    intro h
    try dsimp only at h
    repeat' split at h
    all_goals simp at h

/-- Closed witness for the amended C3: both sides of the characterization
hold at the concrete store (the `/a` → `/ab` move is rejected, and `"/ab"`
does start with `"/a"`). -/
theorem spec_C3_witness :
    FolderService.findFolder Cex.stC3 1 2 = some Cex.folA ∧
    Cex.folA.path ≠ "/" ∧
    FolderService.findFolder Cex.stC3 1 3 = some Cex.folAB ∧
    (FolderService.moveFolder 1 2 3 Cex.stC3 = .error .invalidDestination ↔
      JsStr.jsStartsWith Cex.folAB.path Cex.folA.path = true) := by
  refine ⟨rfl, by decide, rfl, ?_⟩
  exact spec_C3_cycle_check_is_plain_prefix 1 2 3 Cex.stC3 Cex.folA Cex.folAB
    rfl (by decide) rfl

/-- **C5**: on every successful `confirmUpload`, the file's `size` and
`mimeType` are overwritten with the blob store's head-probe values, its
status becomes `active`, and the owner's `storageUsed` grows by exactly the
blob-reported size (never the client-declared size from the intent), with
the updated document stored. -/
theorem spec_C5_confirm_uses_verified_size (uid fid : Nat)
    (hd : Option FileService.HeadObject) (st : St) (f' : FileDoc) (st' : St)
    (h0 : FileService.HeadObject)
    (h : FileService.confirmUpload uid fid hd st = .ok (f', st'))
    (hh : hd = some h0) (huid : st.user.id = uid) :
    f'.size = h0.contentLength ∧ f'.mimeType = h0.contentType ∧
    f'.status = FileStatus.active ∧
    st'.user.storageUsed = st.user.storageUsed + (h0.contentLength : Int) ∧
    f' ∈ st'.files := by
  obtain ⟨file, h1, hfind, hh1, hf, hst⟩ := confirmUpload_ok h
  rw [hh] at hh1
  injection hh1 with e
  subst e
  subst hst
  subst hf
  refine ⟨rfl, rfl, rfl, ?_, ?_⟩
  · rw [incStorage_used]
    simp [huid]
  · rw [incStorage_files]
    exact mem_map_update _ (List.mem_of_find?_eq_some hfind)

/-- Closed witness for C5: confirming the pending 10-byte-declared upload
with a 1000-byte probe stores a 1000-byte active file and adds 1000 bytes
to the quota counter. -/
theorem spec_C5_witness :
    FileService.confirmUpload 1 0 (some Cex.head0) Cex.st1 = .ok (Cex.f0, Cex.st2) ∧
    Cex.f0.size = Cex.head0.contentLength ∧
    Cex.f0.mimeType = Cex.head0.contentType ∧
    Cex.f0.status = FileStatus.active ∧
    Cex.st2.user.storageUsed = Cex.st1.user.storageUsed + (Cex.head0.contentLength : Int) ∧
    Cex.f0 ∈ Cex.st2.files := by
  have h : FileService.confirmUpload 1 0 (some Cex.head0) Cex.st1 = .ok (Cex.f0, Cex.st2) := by rfl
  have t := spec_C5_confirm_uses_verified_size 1 0 (some Cex.head0) Cex.st1
    Cex.f0 Cex.st2 Cex.head0 h rfl rfl
  exact ⟨h, t.1, t.2.1, t.2.2.1, t.2.2.2.1, t.2.2.2.2⟩

/-- **C6**: `deleteFile` on an owned non-deleted file computes
`reclaim = size` when the file is `active` and `0` otherwise. When the
reclaim is positive and the guard `storageUsed ≥ reclaim` fails, the call
aborts with the quota-inconsistency error (so nothing is mutated and the
file stays un-deleted). When the call succeeds, the reported reclaim is
exactly that amount, `storageUsed` drops by it (by zero when the file was
not active), and the file is stored soft-deleted with the deletion
timestamp. -/
theorem spec_C6_deleteFile_guard_first (uid fid now : Nat) (st : St) (file : FileDoc)
    (hfind : st.files.find? (fun f => f.id = fid && f.ownerId = uid && !f.isDeleted) = some file) :
    ((0 < (if file.status = FileStatus.active then file.size else 0) ∧
        st.user.storageUsed < (((if file.status = FileStatus.active then file.size else 0) : Nat) : Int)) →
      FileService.deleteFile uid fid now st = .error .quotaInconsistency) ∧
    (∀ r st', FileService.deleteFile uid fid now st = .ok (r, st') →
      r.storageReclaimed = (if file.status = FileStatus.active then file.size else 0) ∧
      st'.user.storageUsed = st.user.storageUsed - (((if file.status = FileStatus.active then file.size else 0) : Nat) : Int) ∧
      { file with isDeleted := true, deletedAt := some now } ∈ st'.files) := by
  have hfmem := List.mem_of_find?_eq_some hfind
  constructor
  · rintro ⟨hpos, hlt⟩
    unfold FileService.deleteFile
    simp only [hfind]
    rw [if_pos hpos]
    unfold guardedDecStorage
    rw [if_neg (by rintro ⟨-, hle⟩; omega)]
  · intro r st' h
    unfold FileService.deleteFile at h
    simp only [hfind] at h
    set reclaim := (if file.status = FileStatus.active then file.size else 0) with hrec
    split at h
    · simp at h
    · next st1 hq =>
      simp only [Except.ok.injEq, Prod.mk.injEq] at h
      obtain ⟨rfl, rfl⟩ := h
      split at hq
      · next hpos =>
        split at hq
        · next stg hg =>
          injection hq with hq1
          subst hq1
          obtain ⟨hstg, -, hle⟩ := guardedDecStorage_some hg
          subst hstg
          exact ⟨rfl, rfl, mem_map_update _ hfmem⟩
        · simp at hq
      · next hnpos =>
        injection hq with hq1
        subst hq1
        have hz : reclaim = 0 := by omega
        refine ⟨rfl, ?_, mem_map_update _ hfmem⟩
        rw [hz]
        simp
/-- Closed witness for C6, exercising both arms: deleting the 10-byte active
file with `storageUsed = 100` succeeds, reclaims 10 and stores the file
soft-deleted; the same delete with `storageUsed = 0` aborts with the
quota-inconsistency error. -/
theorem spec_C6_witness :
    FileService.deleteFile 1 1 5 (Cex.stC7 100) = .ok (Cex.delRes.1, Cex.delRes.2) ∧
    Cex.delRes.1.storageReclaimed = (if (Cex.aFile 1 10).status = FileStatus.active then (Cex.aFile 1 10).size else 0) ∧
    Cex.delRes.2.user.storageUsed = (Cex.stC7 100).user.storageUsed - (((if (Cex.aFile 1 10).status = FileStatus.active then (Cex.aFile 1 10).size else 0) : Nat) : Int) ∧
    { Cex.aFile 1 10 with isDeleted := true, deletedAt := some 5 } ∈ Cex.delRes.2.files ∧
    FileService.deleteFile 1 1 5 (Cex.stC7 0) = .error .quotaInconsistency := by
  have h : FileService.deleteFile 1 1 5 (Cex.stC7 100) = .ok (Cex.delRes.1, Cex.delRes.2) := by rfl
  have t := (spec_C6_deleteFile_guard_first 1 1 5 (Cex.stC7 100) (Cex.aFile 1 10) rfl).2
    Cex.delRes.1 Cex.delRes.2 h
  have t0 := (spec_C6_deleteFile_guard_first 1 1 5 (Cex.stC7 0) (Cex.aFile 1 10) rfl).1
    (by constructor <;> decide)
  exact ⟨h, t.1, t.2.1, t.2.2, t0⟩

/-- **C7**: `batchDeleteFiles` over three active files of sizes 10, 20 and
30 whose 20-byte member's per-file save rejects (and the other two succeed)
reports `deleted = 2`, `failed = 1`, `totalSizeReclaimed = 40`, and leaves
the owner's `storageUsed` exactly 40 below its starting value: the whole 60
is decremented up front and the failed file's 20 bytes are re-incremented
as compensation. -/
theorem spec_C7_batch_compensation (u0 : Int) (h : 60 ≤ u0) :
    (FileService.batchDeleteFiles 1 [1, 2, 3] [2] 9 (Cex.stC7 u0)).map
      (fun p => (p.1.deleted, p.1.failed, p.1.totalSizeReclaimed,
        p.2.user.storageUsed)) = .ok (2, 1, 40, u0 - 40) := by
  simp only [FileService.batchDeleteFiles, Cex.stC7, Cex.aFile, Cex.folder10,
    guardedDecStorage, incStorage]
  norm_num [h]
  simp only [Except.map, Except.ok.injEq, Prod.mk.injEq, true_and]
  omega

/-- Closed witness for C7 at `storageUsed = 100`. -/
theorem spec_C7_witness :
    (60 : Int) ≤ 100 ∧
    (FileService.batchDeleteFiles 1 [1, 2, 3] [2] 9 (Cex.stC7 100)).map
      (fun p => (p.1.deleted, p.1.failed, p.1.totalSizeReclaimed,
        p.2.user.storageUsed)) = .ok (2, 1, 40, 100 - 40) :=
  ⟨by norm_num, spec_C7_batch_compensation 100 (by norm_num)⟩

/-- C8 counterexample: `$` and `&` pass `validateFolderName` (they are not
in `FORBIDDEN_CHARS`), and `String.prototype.replace` applies
dollar-substitution to its replacement string, so renaming `/a` to `x$&y`
succeeds and rewrites the live descendant `/a/b` to `/x/ay/b` — the `$&` in
the new path expands to the matched old path `/a` — and not to the
prefix-replacement value `/x$&y/b` the original claim requires. -/
theorem spec_C8_counterexample :
    FolderService.renameFolder 1 2 "x$&y" 0 Cex.stRen =
      .ok (Cex.renDollarRes.1, Cex.renDollarRes.2) ∧
    Cex.renDollarRes.1.path = "/x$&y" ∧
    (Cex.renDollarRes.2.folders.get ⟨3, by decide⟩).path = "/x/ay/b" ∧
    ¬((Cex.renDollarRes.2.folders.get ⟨3, by decide⟩).path =
        Cex.renDollarRes.1.path ++ "/b") :=
  ⟨rfl, rfl, rfl, by decide⟩

/-- **C8** (amended): after a successful `renameFolder` that actually changes
the name (the validated new name differs case-insensitively from the current
one), *provided the resulting folder path contains no `$`*, every live
descendant of the folder keeps its depth and has its path equal to its old
path with the old `path(f)` prefix replaced by the new one (the returned
folder's path). The proviso is necessary: `$` and `&` pass name validation,
and `String.prototype.replace` dollar-substitutes the replacement, so a new
path containing e.g. `$&` is not inserted literally (see the
counterexample). -/
theorem spec_C8_rename_cascades_paths (uid fid : Nat) (newName : String)
    (li : Nat) (st : St) (folder : FolderDoc) (sName : String) (r : FolderDoc)
    (st' : St)
    (hfind : FolderService.findFolder st uid fid = some folder)
    (hroot : ¬(folder.path = "/"))
    (hval : (FolderService.validateFolderName newName li).1 = .ok sName)
    (hch : ¬(JsStr.jsToLower folder.name = JsStr.jsToLower sName))
    (hinj : ∀ g1 ∈ st.folders, ∀ g2 ∈ st.folders, g1.id = g2.id → g1 = g2)
    (hnp : ∀ c ∈ r.path.data, ¬(c = '$'))
    (h : FolderService.renameFolder uid fid newName li st = .ok (r, st')) :
    st'.folders.length = st.folders.length ∧
    ∀ i (hi : i < st.folders.length) (hi' : i < st'.folders.length),
      st.folders[i] ∈ FolderModel.getDescendants folder st.folders →
      (st'.folders[i]).depth = (st.folders[i]).depth ∧
      ∃ t : String, (st.folders[i]).path = folder.path ++ t ∧
        (st'.folders[i]).path = r.path ++ t := by
  unfold FolderService.renameFolder at h
  simp only [hfind] at h
  rw [if_neg hroot] at h
  simp only [hval] at h
  rw [if_neg hch] at h
  split at h
  · simp at h
  · have hfolmem : folder ∈ st.folders := List.mem_of_find?_eq_some hfind
    split at h
    all_goals split at h
    any_goals exact Except.noConfusion h
    all_goals
      (simp only [Except.ok.injEq, Prod.mk.injEq] at h
       obtain ⟨rfl, rfl⟩ := h
       refine ⟨by simp, ?_⟩
       intro i hi hi' hdesc
       obtain ⟨t, ht1, ht2⟩ := rename_bulk_at st.folders folder _ _ hinj hfolmem hroot i hi hi' hdesc hnp
       rw [ht2]
       exact ⟨rfl, t, ht1, rfl⟩)

/-- Closed witness for C8: renaming `/a` to `/x` over the concrete store
rewrites the live descendant `/a/b` to `/x/b` with unchanged depth. -/
theorem spec_C8_witness :
    FolderService.renameFolder 1 2 "x" 0 Cex.stRen = .ok (Cex.renRes.1, Cex.renRes.2) ∧
    Cex.renRes.2.folders.length = Cex.stRen.folders.length ∧
    (Cex.renRes.2.folders.get ⟨3, by decide⟩).depth = (Cex.stRen.folders.get ⟨3, by decide⟩).depth ∧
    ∃ t : String, (Cex.stRen.folders.get ⟨3, by decide⟩).path = Cex.folA.path ++ t ∧
      (Cex.renRes.2.folders.get ⟨3, by decide⟩).path = Cex.renRes.1.path ++ t := by
  have h : FolderService.renameFolder 1 2 "x" 0 Cex.stRen = .ok (Cex.renRes.1, Cex.renRes.2) := by rfl
  have t := spec_C8_rename_cascades_paths 1 2 "x" 0 Cex.stRen Cex.folA "x"
    Cex.renRes.1 Cex.renRes.2 rfl (by decide) rfl (by decide) (by decide)
    (by decide) h
  obtain ⟨hlen, hp⟩ := t
  have hpt := hp 3 (by decide) (by decide) (by decide)
  exact ⟨h, hlen, hpt.1, hpt.2⟩

/-- **C10**: the path-rewrite cascades of `renameFolder` and `moveFolder`
touch only non-deleted descendants — for every folder document that is
soft-deleted at call time, both operations leave its `path` and `depth`
fields unchanged (they locate descendants with `getDescendants`, whose query
filters `isDeleted: false`, and update only those ids). -/
theorem spec_C10_cascades_skip_deleted :
    (∀ (uid fid : Nat) (newName : String) (li : Nat) (st : St) (r : FolderDoc)
       (st' : St),
      FolderService.renameFolder uid fid newName li st = .ok (r, st') →
      (∀ g1 ∈ st.folders, ∀ g2 ∈ st.folders, g1.id = g2.id → g1 = g2) →
      st'.folders.length = st.folders.length ∧
      ∀ i (hi : i < st.folders.length) (hi' : i < st'.folders.length),
        (st.folders[i]).isDeleted = true →
        (st'.folders[i]).path = (st.folders[i]).path ∧
        (st'.folders[i]).depth = (st.folders[i]).depth) ∧
    (∀ (uid fid npid : Nat) (st : St) (r : FolderDoc) (st' : St),
      FolderService.moveFolder uid fid npid st = .ok (r, st') →
      (∀ g1 ∈ st.folders, ∀ g2 ∈ st.folders, g1.id = g2.id → g1 = g2) →
      st'.folders.length = st.folders.length ∧
      ∀ i (hi : i < st.folders.length) (hi' : i < st'.folders.length),
        (st.folders[i]).isDeleted = true →
        (st'.folders[i]).path = (st.folders[i]).path ∧
        (st'.folders[i]).depth = (st.folders[i]).depth) := by
  constructor
  · intro uid fid newName li st r st' h hinj
    unfold FolderService.renameFolder at h
    split at h
    · exact Except.noConfusion h
    · next folder hfind =>
      obtain ⟨hfolmem, hfoldel⟩ := findFolder_props hfind
      split at h
      · exact Except.noConfusion h
      · split at h
        · exact Except.noConfusion h
        · next sName =>
          split at h
          · simp only [Except.ok.injEq, Prod.mk.injEq] at h
            obtain ⟨rfl, rfl⟩ := h
            exact ⟨rfl, fun i hi hi' _ => ⟨rfl, rfl⟩⟩
          · split at h
            · exact Except.noConfusion h
            · try dsimp only at h
              split at h
              all_goals split at h
              any_goals exact Except.noConfusion h
              all_goals
                (simp only [Except.ok.injEq, Prod.mk.injEq] at h
                 obtain ⟨rfl, rfl⟩ := h
                 refine ⟨by simp, ?_⟩
                 intro i hi hi' hdel
                 have hgmem : st.folders[i] ∈ st.folders := List.getElem_mem hi
                 have hneid : ¬(st.folders[i].id = folder.id) := by
                   intro heq
                   have heqd := hinj _ hgmem _ hfolmem heq
                   rw [heqd, hfoldel] at hdel
                   exact Bool.noConfusion hdel
                 rw [List.getElem_map, List.getElem_map, if_neg hneid,
                   find?_update_none st.folders folder _ _ hinj hgmem hdel]
                 exact ⟨rfl, rfl⟩)
  · intro uid fid npid st r st' h hinj
    unfold FolderService.moveFolder at h
    split at h
    · exact Except.noConfusion h
    · next folder hfind =>
      obtain ⟨hfolmem, hfoldel⟩ := findFolder_props hfind
      split at h
      · exact Except.noConfusion h
      · split at h
        · exact Except.noConfusion h
        · next newParent hfp =>
          split at h
          · exact Except.noConfusion h
          · try dsimp only at h
            repeat' split at h
            any_goals exact Except.noConfusion h
            all_goals
              (simp only [Except.ok.injEq, Prod.mk.injEq] at h
               obtain ⟨rfl, rfl⟩ := h
               refine ⟨by simp [adjustFolderCount], ?_⟩
               intro i hi hi' hdel
               have hgmem : st.folders[i] ∈ st.folders := List.getElem_mem hi
               have hneid : ¬(st.folders[i].id = folder.id) := by
                 intro heq
                 have heqd := hinj _ hgmem _ hfolmem heq
                 rw [heqd, hfoldel] at hdel
                 exact Bool.noConfusion hdel
               have hiA : i < (adjustFolderCount st.folders folder.parentFolderId (-1)).length := by
                 rw [adjustFolderCount_length]
                 exact hi
               have h1 := adjustFolderCount_fields st.folders folder.parentFolderId (-1) i hi hiA
               have hiB : i < (adjustFolderCount (adjustFolderCount st.folders folder.parentFolderId (-1)) (some newParent.id) 1).length := by
                 rw [adjustFolderCount_length]
                 exact hiA
               have h2 := adjustFolderCount_fields (adjustFolderCount st.folders folder.parentFolderId (-1)) (some newParent.id) 1 i hiA hiB
               have hid := h2.1.trans h1.1
               have hpath := h2.2.1.trans h1.2.1
               have hdepth := h2.2.2.1.trans h1.2.2.1
               simp only [List.getElem_map]
               rw [hid, if_neg hneid, hid,
                 find?_update_none st.folders folder (st.folders[i]) _ hinj hgmem hdel]
               exact ⟨hpath, hdepth⟩)

/-- Closed witness for C10: over the concrete store, renaming `/a` to `/x`
and moving `/ab` under `/a` both leave the soft-deleted descendant `/a/c`
(index 4) with its path and depth intact. -/
theorem spec_C10_witness :
    FolderService.renameFolder 1 2 "x" 0 Cex.stRen = .ok (Cex.renRes.1, Cex.renRes.2) ∧
    (Cex.renRes.2.folders.get ⟨4, by decide⟩).path = (Cex.stRen.folders.get ⟨4, by decide⟩).path ∧
    (Cex.renRes.2.folders.get ⟨4, by decide⟩).depth = (Cex.stRen.folders.get ⟨4, by decide⟩).depth ∧
    FolderService.moveFolder 1 3 2 Cex.stRen = .ok (Cex.movRes.1, Cex.movRes.2) ∧
    (Cex.movRes.2.folders.get ⟨4, by decide⟩).path = (Cex.stRen.folders.get ⟨4, by decide⟩).path ∧
    (Cex.movRes.2.folders.get ⟨4, by decide⟩).depth = (Cex.stRen.folders.get ⟨4, by decide⟩).depth := by
  have hr : FolderService.renameFolder 1 2 "x" 0 Cex.stRen = .ok (Cex.renRes.1, Cex.renRes.2) := by rfl
  have hm : FolderService.moveFolder 1 3 2 Cex.stRen = .ok (Cex.movRes.1, Cex.movRes.2) := by rfl
  obtain ⟨t1, t2⟩ := spec_C10_cascades_skip_deleted
  have w1 := (t1 1 2 "x" 0 Cex.stRen Cex.renRes.1 Cex.renRes.2 hr (by decide)).2
    4 (by decide) (by decide) (by decide)
  have w2 := (t2 1 3 2 Cex.stRen Cex.movRes.1 Cex.movRes.2 hm (by decide)).2
    4 (by decide) (by decide) (by decide)
  exact ⟨hr, w1.1, w1.2, hm, w2.1, w2.2⟩

theorem guardedDecStorage_none {st : St} {uid : Nat} {amt : Int}
    (h : guardedDecStorage st uid amt = none) :
    ¬(st.user.id = uid ∧ amt ≤ st.user.storageUsed) := by
  unfold guardedDecStorage at h
  intro hc
  rw [if_pos hc] at h
  exact Option.noConfusion h

theorem marked_folder_at (folders : List FolderDoc) (ids : List Nat) (now : Nat)
    (i : Nat) (hi : i < folders.length)
    (hi' : i < (folders.map (fun g => if ids.contains g.id then { g with isDeleted := true, deletedAt := some now } else g)).length)
    (hmem : (folders[i]).id ∈ ids) :
    ((folders.map (fun g => if ids.contains g.id then { g with isDeleted := true, deletedAt := some now } else g))[i]).isDeleted = true ∧
    ((folders.map (fun g => if ids.contains g.id then { g with isDeleted := true, deletedAt := some now } else g))[i]).deletedAt = some now := by
  simp only [List.getElem_map]
  rw [if_pos (List.elem_eq_true_of_mem hmem)]
  exact ⟨rfl, rfl⟩

theorem marked_file_at (files : List FileDoc) (fids : List Nat) (now : Nat)
    (j : Nat) (hj : j < files.length)
    (hj' : j < (files.map (fun f => if fids.contains f.id then { f with isDeleted := true, deletedAt := some now } else f)).length)
    (hmem : (files[j]).id ∈ fids) :
    ((files.map (fun f => if fids.contains f.id then { f with isDeleted := true, deletedAt := some now } else f))[j]).isDeleted = true ∧
    ((files.map (fun f => if fids.contains f.id then { f with isDeleted := true, deletedAt := some now } else f))[j]).deletedAt = some now := by
  simp only [List.getElem_map]
  rw [if_pos (List.elem_eq_true_of_mem hmem)]
  exact ⟨rfl, rfl⟩

set_option maxHeartbeats 1000000 in
/-- **C4** (amended): a successful cascading `deleteFolder` soft-deletes
(with the deletion timestamp) every folder whose id is the target's or one
of its live descendants', and **only the non-deleted `active` files** among
the files located in those folders — pending and failed files are left
untouched, which is what the counterexample exhibits. The active files'
sizes are summed (`cascadeReclaim`) and that sum is reported as
`storageReclaimed` and reclaimed through one guarded decrement of the
owner's `storageUsed`, silently skipped when the guard fails. -/
theorem spec_C4_cascade_deletes_active_only (uid fid : Nat) (force : Bool) (now : Nat) (st : St)
    (folder : FolderDoc) (r : FolderService.DeleteFolderResult) (st' : St)
    (hfind : FolderService.findFolder st uid fid = some folder)
    (huid : st.user.id = uid)
    (h : FolderService.deleteFolder uid fid true force now st = .ok (r, st')) :
    st'.folders.length = st.folders.length ∧
    (∀ i (hi : i < st.folders.length) (hi' : i < st'.folders.length),
      (st.folders[i]).id ∈ FolderService.deletedFolderIds folder st.folders →
      (st'.folders[i]).isDeleted = true ∧ (st'.folders[i]).deletedAt = some now) ∧
    st'.files.length = st.files.length ∧
    (∀ j (hj : j < st.files.length) (hj' : j < st'.files.length),
      st.files[j] ∈ FolderService.cascadeFiles st.files (FolderService.deletedFolderIds folder st.folders) →
      (st'.files[j]).isDeleted = true ∧ (st'.files[j]).deletedAt = some now) ∧
    r.storageReclaimed = FolderService.cascadeReclaim st.files (FolderService.deletedFolderIds folder st.folders) ∧
    st'.user.storageUsed =
      (if 0 < FolderService.cascadeReclaim st.files (FolderService.deletedFolderIds folder st.folders) ∧
          ((FolderService.cascadeReclaim st.files (FolderService.deletedFolderIds folder st.folders) : Nat) : Int) ≤ st.user.storageUsed
        then st.user.storageUsed - (FolderService.cascadeReclaim st.files (FolderService.deletedFolderIds folder st.folders) : Int)
        else st.user.storageUsed) := by
  unfold FolderService.deleteFolder at h
  simp only [hfind] at h
  split at h
  · exact Except.noConfusion h
  · split at h
    · exact Except.noConfusion h
    · try dsimp only at h
      split at h
      case isFalse hcontra => exact absurd trivial hcontra
      split at h
      · -- no active files under the tree: nothing reclaimed
        next hfe =>
        have hnil : FolderService.cascadeFiles st.files (FolderService.deletedFolderIds folder st.folders) = [] :=
          List.isEmpty_iff.mp hfe
        have hz : FolderService.cascadeReclaim st.files (FolderService.deletedFolderIds folder st.folders) = 0 := by
          unfold FolderService.cascadeReclaim
          rw [hnil]
          rfl
        try dsimp only at h
        split at h
        all_goals
          (simp only [Except.ok.injEq, Prod.mk.injEq] at h
           obtain ⟨rfl, rfl⟩ := h
           refine ⟨by simp [adjustFolderCount], ?_, rfl, ?_, hz.symm, by simp [hz]⟩
           · intro i hi hi' hmem
             first
             | (have hf := adjustFolderCount_fields _ _ (-1) i (by simpa using hi) hi'
                have hm := marked_folder_at st.folders _ now i hi (by simpa using hi) hmem
                exact ⟨hf.2.2.2.1.trans hm.1, hf.2.2.2.2.trans hm.2⟩)
             | exact marked_folder_at st.folders _ now i hi hi' hmem
           · intro j hj hj' hmem
             rw [hnil] at hmem
             exact absurd hmem (List.not_mem_nil _))
      · -- active files exist: mark them and reclaim through the guard
        next hfe =>
        try dsimp only at h
        split at h
        all_goals try dsimp only at h
        all_goals
          (split at h
           · next hpos =>
             split at h
             · next stg hg =>
               obtain ⟨hstg, -, hle⟩ := guardedDecStorage_some hg
               subst hstg
               have hc : 0 < FolderService.cascadeReclaim st.files (FolderService.deletedFolderIds folder st.folders) ∧
                   ((FolderService.cascadeReclaim st.files (FolderService.deletedFolderIds folder st.folders) : Nat) : Int) ≤ st.user.storageUsed :=
                 ⟨hpos, hle⟩
               simp only [Except.ok.injEq, Prod.mk.injEq] at h
               obtain ⟨rfl, rfl⟩ := h
               refine ⟨by simp [adjustFolderCount], ?_, by simp, ?_, rfl, by rw [if_pos hc] <;> rfl⟩
               · intro i hi hi' hmem
                 first
                 | (have hf := adjustFolderCount_fields _ _ (-1) i (by simpa using hi) hi'
                    have hm := marked_folder_at st.folders _ now i hi (by simpa using hi) hmem
                    exact ⟨hf.2.2.2.1.trans hm.1, hf.2.2.2.2.trans hm.2⟩)
                 | exact marked_folder_at st.folders _ now i hi hi' hmem
               · intro j hj hj' hmem
                 exact marked_file_at st.files _ now j hj (by simpa using hj)
                   (List.mem_map_of_mem _ hmem)
             · next hg =>
               have hgn := guardedDecStorage_none hg
               have hcn : ¬(0 < FolderService.cascadeReclaim st.files (FolderService.deletedFolderIds folder st.folders) ∧
                   ((FolderService.cascadeReclaim st.files (FolderService.deletedFolderIds folder st.folders) : Nat) : Int) ≤ st.user.storageUsed) := by
                 rintro ⟨-, hle⟩
                 exact hgn ⟨huid, hle⟩
               simp only [Except.ok.injEq, Prod.mk.injEq] at h
               obtain ⟨rfl, rfl⟩ := h
               refine ⟨by simp [adjustFolderCount], ?_, by simp, ?_, rfl, by rw [if_neg hcn] <;> rfl⟩
               · intro i hi hi' hmem
                 first
                 | (have hf := adjustFolderCount_fields _ _ (-1) i (by simpa using hi) hi'
                    have hm := marked_folder_at st.folders _ now i hi (by simpa using hi) hmem
                    exact ⟨hf.2.2.2.1.trans hm.1, hf.2.2.2.2.trans hm.2⟩)
                 | exact marked_folder_at st.folders _ now i hi hi' hmem
               · intro j hj hj' hmem
                 exact marked_file_at st.files _ now j hj (by simpa using hj)
                   (List.mem_map_of_mem _ hmem)
           · next hnpos =>
             have hcn : ¬(0 < FolderService.cascadeReclaim st.files (FolderService.deletedFolderIds folder st.folders) ∧
                 ((FolderService.cascadeReclaim st.files (FolderService.deletedFolderIds folder st.folders) : Nat) : Int) ≤ st.user.storageUsed) := by
               rintro ⟨h0, -⟩
               exact hnpos h0
             simp only [Except.ok.injEq, Prod.mk.injEq] at h
             obtain ⟨rfl, rfl⟩ := h
             refine ⟨by simp [adjustFolderCount], ?_, by simp, ?_, rfl, by rw [if_neg hcn] <;> rfl⟩
             · intro i hi hi' hmem
               first
               | (have hf := adjustFolderCount_fields _ _ (-1) i (by simpa using hi) hi'
                  have hm := marked_folder_at st.folders _ now i hi (by simpa using hi) hmem
                  exact ⟨hf.2.2.2.1.trans hm.1, hf.2.2.2.2.trans hm.2⟩)
               | exact marked_folder_at st.folders _ now i hi hi' hmem
             · intro j hj hj' hmem
               exact marked_file_at st.files _ now j hj (by simpa using hj)
                 (List.mem_map_of_mem _ hmem))

/-- **C4** — counterexample: the claim as stated is false. Cascade-deleting
`/a` (forced), which holds one non-deleted `pending` file, succeeds but
leaves that file with `isDeleted = false`: the cascade's file query filters
`status: "active"`, so non-active files are not soft-deleted. -/
theorem spec_C4_counterexample :
    Cex.pendFile.isDeleted = false ∧
    Cex.pendFile.status = FileStatus.pending ∧
    (FolderService.deleteFolder 1 2 true true 3 Cex.stC4).map
      (fun p => p.2.files.map FileDoc.isDeleted) = .ok [false] :=
  ⟨rfl, rfl, rfl⟩

/-- Closed witness for the amended C4: cascade-deleting `/a`, which holds a
7-byte active file and a pending file, marks the folder and the active file
deleted, reports a 7-byte reclaim and drops `storageUsed` from 10 to 3. -/
theorem spec_C4_witness :
    FolderService.deleteFolder 1 2 true true 3 Cex.stC4b = .ok (Cex.delFolRes.1, Cex.delFolRes.2) ∧
    (Cex.delFolRes.2.folders.get ⟨1, by decide⟩).isDeleted = true ∧
    (Cex.delFolRes.2.folders.get ⟨1, by decide⟩).deletedAt = some 3 ∧
    (Cex.delFolRes.2.files.get ⟨0, by decide⟩).isDeleted = true ∧
    (Cex.delFolRes.2.files.get ⟨0, by decide⟩).deletedAt = some 3 ∧
    Cex.delFolRes.1.storageReclaimed =
      FolderService.cascadeReclaim Cex.stC4b.files
        (FolderService.deletedFolderIds Cex.folA Cex.stC4b.folders) ∧
    Cex.delFolRes.2.user.storageUsed = 3 := by
  have h : FolderService.deleteFolder 1 2 true true 3 Cex.stC4b = .ok (Cex.delFolRes.1, Cex.delFolRes.2) := by rfl
  have t := spec_C4_cascade_deletes_active_only 1 2 true 3 Cex.stC4b Cex.folA
    Cex.delFolRes.1 Cex.delFolRes.2 rfl rfl h
  obtain ⟨-, hfold, -, hfile, hrec, hused⟩ := t
  have w1 := hfold 1 (by decide) (by decide) (by decide)
  have w2 := hfile 0 (by decide) (by decide) (by decide)
  refine ⟨h, w1.1, w1.2, w2.1, w2.2, hrec, ?_⟩
  rw [hused]
  decide

theorem guardedDecStorage_nonneg {st : St} {uid : Nat} {amt : Int} {st1 : St}
    (h : guardedDecStorage st uid amt = some st1) : 0 ≤ st1.user.storageUsed := by
  obtain ⟨h1, -, hle⟩ := guardedDecStorage_some h
  subst h1
  simpa using hle

theorem deleteFile_ok_nonneg {uid fid now : Nat} {st : St}
    {r : FileService.DeleteFileResult} {st' : St}
    (h : FileService.deleteFile uid fid now st = .ok (r, st'))
    (h0 : 0 ≤ st.user.storageUsed) : 0 ≤ st'.user.storageUsed := by
  unfold FileService.deleteFile at h
  split at h
  · exact Except.noConfusion h
  · next file hfind =>
    try dsimp only at h
    set reclaim := (if file.status = FileStatus.active then file.size else 0) with hrec
    split at h
    · exact Except.noConfusion h
    · next st1 hq =>
      simp only [Except.ok.injEq, Prod.mk.injEq] at h
      obtain ⟨rfl, rfl⟩ := h
      split at hq
      · split at hq
        · next stg hg =>
          injection hq with hq1
          subst hq1
          simpa using guardedDecStorage_nonneg hg
        · exact Except.noConfusion hq
      · injection hq with hq1
        subst hq1
        exact h0

theorem batchDeleteFiles_ok_nonneg {uid : Nat} {fileIds saveFails : List Nat}
    {now : Nat} {st : St} {r : FileService.BatchDeleteResult} {st' : St}
    (h : FileService.batchDeleteFiles uid fileIds saveFails now st = .ok (r, st'))
    (h0 : 0 ≤ st.user.storageUsed) : 0 ≤ st'.user.storageUsed := by
  unfold FileService.batchDeleteFiles at h
  split at h
  · exact Except.noConfusion h
  · try dsimp only at h
    split at h
    · exact Except.noConfusion h
    · try dsimp only at h
      split at h
      · exact Except.noConfusion h
      · next st1 hq =>
        have h1 : 0 ≤ st1.user.storageUsed := by
          split at hq
          · split at hq
            · next stg hg =>
              injection hq with hq1
              subst hq1
              exact guardedDecStorage_nonneg hg
            · exact Except.noConfusion hq
          · injection hq with hq1
            subst hq1
            exact h0
        simp only [Except.ok.injEq, Prod.mk.injEq] at h
        obtain ⟨-, rfl⟩ := h
        split
        · rw [incStorage_used]
          split
          · exact add_nonneg h1 (Int.natCast_nonneg _)
          · exact h1
        · exact h1

theorem deleteFolder_ok_nonneg {uid fid : Nat} {c f : Bool} {now : Nat} {st : St}
    {r : FolderService.DeleteFolderResult} {st' : St}
    (h : FolderService.deleteFolder uid fid c f now st = .ok (r, st'))
    (h0 : 0 ≤ st.user.storageUsed) : 0 ≤ st'.user.storageUsed := by
  unfold FolderService.deleteFolder at h
  split at h
  · exact Except.noConfusion h
  · next folder hfind =>
    split at h
    · exact Except.noConfusion h
    · split at h
      · exact Except.noConfusion h
      · try dsimp only at h
        simp only [Except.ok.injEq, Prod.mk.injEq] at h
        obtain ⟨-, rfl⟩ := h
        split
        · split
          · split
            · exact h0
            · try dsimp only
              split
              · split
                · next stg hg => simpa using guardedDecStorage_nonneg hg
                · exact h0
              · exact h0
          · exact h0
        · split
          · split
            · exact h0
            · try dsimp only
              split
              · split
                · next stg hg => simpa using guardedDecStorage_nonneg hg
                · exact h0
              · exact h0
          · exact h0

theorem runOp_nonneg {uid : Nat} {op : Op} {st st' : St}
    (h : runOp uid op st = .ok st') (h0 : 0 ≤ st.user.storageUsed) :
    0 ≤ st'.user.storageUsed := by
  cases op with
  | intent dto =>
    obtain ⟨⟨fid, st1⟩, he, hb⟩ := except_map_ok h
    obtain rfl : st1 = st' := hb
    rw [(createUploadIntent_ok he).1]
    exact h0
  | confirm fid head =>
    obtain ⟨⟨f1, st1⟩, he, hb⟩ := except_map_ok h
    obtain rfl : st1 = st' := hb
    obtain ⟨file, hd0, -, -, -, hst⟩ := confirmUpload_ok he
    rw [hst, incStorage_used]
    split
    · exact add_nonneg h0 (Int.natCast_nonneg _)
    · exact h0
  | delete fid now =>
    obtain ⟨⟨r1, st1⟩, he, hb⟩ := except_map_ok h
    obtain rfl : st1 = st' := hb
    exact deleteFile_ok_nonneg he h0
  | batchDelete ids fails now =>
    obtain ⟨⟨r1, st1⟩, he, hb⟩ := except_map_ok h
    obtain rfl : st1 = st' := hb
    exact batchDeleteFiles_ok_nonneg he h0
  | delFolder fid c f now =>
    obtain ⟨⟨r1, st1⟩, he, hb⟩ := except_map_ok h
    obtain rfl : st1 = st' := hb
    exact deleteFolder_ok_nonneg he h0

theorem stepOp_nonneg {uid : Nat} {st : St} {op : Op}
    (h0 : 0 ≤ st.user.storageUsed) : 0 ≤ (stepOp uid st op).user.storageUsed := by
  unfold stepOp
  split
  · next hr => exact runOp_nonneg hr h0
  · exact h0

/-- C1: for every sequence of `createUploadIntent` / `confirmUpload` /
`deleteFile` / `batchDeleteFiles` / `deleteFolder` calls (each step keeping
the previous store when the call throws), starting from a store whose owner
has `storageUsed ≥ 0`, the owner's `storageUsed` stays `≥ 0` after the trace —
and, since the trace is arbitrary, after every prefix of it: each decrement
goes through the `$gte`-guarded `findOneAndUpdate` and is aborted
(`deleteFile`, `batchDeleteFiles`) or skipped (`deleteFolder`) when the guard
fails, while every other update only adds a nonnegative amount. -/
theorem spec_C1_storage_nonneg (uid : Nat) (ops : List Op) (st : St)
    (h0 : 0 ≤ st.user.storageUsed) :
    0 ≤ (runOps uid ops st).user.storageUsed := by
  induction ops generalizing st with
  | nil => exact h0
  | cons op ops ih => exact ih (stepOp uid st op) (stepOp_nonneg h0)

theorem spec_C1_witness :
    0 ≤ Cex.st0.user.storageUsed ∧
      0 ≤ (runOps 1 [Op.intent Cex.dto0, Op.confirm 0 (some Cex.head0),
            Op.delete 0 7, Op.batchDelete [0] [] 8,
            Op.delFolder 10 true true 9] Cex.st0).user.storageUsed :=
  ⟨by decide, spec_C1_storage_nonneg 1
    [Op.intent Cex.dto0, Op.confirm 0 (some Cex.head0),
     Op.delete 0 7, Op.batchDelete [0] [] 8,
     Op.delFolder 10 true true 9] Cex.st0 (by decide)⟩
